import Mathlib

/-!
# Verification of the electricity-sales ETL pipeline

A shallow embedding of `etl_pipeline.py` (the final definitions in the file,
which shadow the earlier duplicates): the data model of pandas DataFrames as
tables of named columns and rows of values, the transform step
`transform_electricity_sales_data` (column-alias normalization, schema
validation, null-price drop, sector filter, month/year derivation, final
projection), the tabular extractor's error dispatch, and a reference-passing
model of the DataFrame heap used to state the copy-on-transform property.
-/

set_option autoImplicit false

namespace Etl

/-- A cell value of a DataFrame: a string, a number, or a missing value
(pandas `NaN`/`None`). Prices are numeric, everything else in this dataset is
a string. -/
inductive Value where
  | vstr : String → Value
  | vnum : ℚ → Value
  | vnull : Value
deriving DecidableEq, Repr

/-- A pandas DataFrame: an ordered list of column names and an ordered list of
rows; each row lists its cells in column order. Column names may repeat
(pandas permits duplicate column labels, which matters for the alias-rename
step). -/
structure Table where
  cols : List String
  rows : List (List Value)
deriving DecidableEq, Repr

/-- Rectangularity: every row has exactly one cell per column. Pandas
DataFrames are rectangular by construction. -/
def Table.WF (t : Table) : Prop := ∀ r ∈ t.rows, r.length = t.cols.length

instance (t : Table) : Decidable t.WF := by
  unfold Table.WF; infer_instance

/-- The cell of row `r` under the first column named `c` (pandas label-based
access resolves to the first matching label); `vnull` if the column is absent
or the row is too short. -/
def cellAt : List String → List Value → String → Value
  | c0 :: cs, v :: vs, c => if c0 = c then v else cellAt cs vs c
  | _, _, _ => Value.vnull

/-- Replace the cell of row `r` under the first column named `c`; the row is
unchanged if the column is absent or the row is too short. -/
def setCell : List String → List Value → String → Value → List Value
  | c0 :: cs, v :: vs, c, x => if c0 = c then x :: vs else v :: setCell cs vs c x
  | _, r, _, _ => r

/-- The alias table `column_mapping` of
`transform_electricity_sales_data`, in the source's insertion order. -/
def column_mapping : List (String × String) :=
  [("Period", "period"),
   ("Date", "period"),
   ("StateID", "stateid"),
   ("StateId", "stateid"),
   ("SectorName", "sectorName"),
   ("sectorname", "sectorName"),
   ("Price", "price"),
   ("UnitPrice", "price"),
   ("Price-Units", "price-units"),
   ("price_units", "price-units"),
   ("unit_price", "price-units")]

/-- The `required_columns` list of the source. -/
def required_columns : List String :=
  ["period", "stateid", "sectorName", "price", "price-units"]

/-- The final projection list
`[year, month, stateid, price, price-units]` of the source. -/
def output_columns : List String :=
  ["year", "month", "stateid", "price", "price-units"]

/-- `df.rename(columns={a: e})`: relabel every column named `a` to `e`.
Values are untouched; if a column named `e` already exists the result has
duplicate labels (pandas does not merge or overwrite on rename). -/
def renameColumn (t : Table) (a e : String) : Table :=
  { t with cols := t.cols.map (fun c => if c = a then e else c) }

/-- The rename loop of `transform_electricity_sales_data`: for each alias
pair in `column_mapping` order, if the alias is a current column label,
rename it to the canonical name. -/
def normalizeColumns (t : Table) : Table :=
  column_mapping.foldl
    (fun td p => if td.cols.contains p.1 then renameColumn td p.1 p.2 else td) t

/-- The action of the rename loop on the column labels alone (the loop never
touches row data). -/
def normCols (cols : List String) : List String :=
  column_mapping.foldl
    (fun cl p => if cl.contains p.1 then cl.map (fun c => if c = p.1 then p.2 else c) else cl)
    cols

/-- Row predicate of `dropna(subset=[price])`: the `price` cell is not NA. -/
def priceOK (cols : List String) (r : List Value) : Bool :=
  decide (cellAt cols r "price" ≠ Value.vnull)

/-- Row predicate of `isin([residential, transportation])` on `sectorName`. -/
def sectorOK (cols : List String) (r : List Value) : Bool :=
  decide (cellAt cols r "sectorName" = Value.vstr "residential" ∨
          cellAt cols r "sectorName" = Value.vstr "transportation")

/-- `transformed_data.dropna(subset=[price], inplace=True)`: drop every row
whose `price` cell is NA. -/
def dropnaPrice (t : Table) : Table :=
  { t with rows := t.rows.filter (priceOK t.cols) }

/-- `transformed_data[transformed_data[sectorName].isin([residential,
transportation])]`: keep only residential/transportation rows. -/
def filterSector (t : Table) : Table :=
  { t with rows := t.rows.filter (sectorOK t.cols) }

/-- Pandas `.str[:n]` on a cell: the first `n` characters of a string value,
NA on a non-string value. -/
def strSliceTake (n : Nat) : Value → Value
  | Value.vstr s => Value.vstr (s.take n)
  | _ => Value.vnull

/-- Pandas `.str[-n:]` on a cell: the last `n` characters of a string value
(the whole string when shorter than `n`), NA on a non-string value. -/
def strSliceTakeRight (n : Nat) : Value → Value
  | Value.vstr s => Value.vstr (s.takeRight n)
  | _ => Value.vnull

/-- Column labels after `df[c] = series`: unchanged if `c` is already a
label, otherwise `c` is appended. -/
def assignColsRes (cols : List String) (c : String) : List String :=
  if cols.contains c then cols else cols ++ [c]

/-- A single row after `df[c] = series`: the cell under `c` is overwritten if
`c` is already a label, otherwise the new cell is appended. -/
def assignRowRes (cols : List String) (c : String) (x : Value) (r : List Value) :
    List Value :=
  if cols.contains c then setCell cols r c x else r ++ [x]

/-- `df[c] = f(row)` (column assignment from a per-row expression over the
current frame): overwrite the column named `c` in place, or append it. -/
def assignColumn (t : Table) (c : String) (f : List Value → Value) : Table :=
  ⟨assignColsRes t.cols c, t.rows.map (fun r => assignRowRes t.cols c (f r) r)⟩

/-- `df[[c1, ..., ck]]`: project onto the listed columns, in that order,
resolving each label to its first matching column. This coincides with
pandas exactly when each requested label occurs at most once in the frame;
`selectColsPd` below models the general duplicate-label behavior. -/
def selectCols (t : Table) (cs : List String) : Table :=
  ⟨cs, t.rows.map (fun r => cs.map (fun c => cellAt t.cols r c))⟩

/-- All cells of row `r` under columns labeled `c`, in frame order (pandas
label access on a non-unique label keeps every matching column). -/
def selectAllCells : List String → List Value → String → List Value
  | c0 :: cs, v :: vs, c =>
    if c0 = c then v :: selectAllCells cs vs c else selectAllCells cs vs c
  | _, _, _ => []

/-- `df[[c1, ..., ck]]` with pandas non-unique-label semantics: each
requested label selects every column bearing it, in frame order, so a label
the rename loop duplicated appears more than once in the result. Agrees with
`selectCols` whenever each requested label occurs exactly once
(`selectColsPd_eq_selectCols`). -/
def selectColsPd (t : Table) (cs : List String) : Table :=
  ⟨cs.flatMap (fun c => t.cols.filter (fun c0 => c0 == c)),
   t.rows.map (fun r => cs.flatMap (fun c => selectAllCells t.cols r c))⟩

/-- The failure cases of the transform, abstracting the two `KeyError`
messages of the source: no required column present at all
(expected and actual column sets reported), or some but not all present
(the missing ones reported). -/
inductive TransformError where
  | SchemaMismatch : List String → List String → TransformError
  | MissingColumns : List String → TransformError
deriving DecidableEq, Repr

/-- The post-validation steps of `transform_electricity_sales_data`, applied
to the normalized working copy: drop null-price rows, keep
residential/transportation rows, derive `month` (first 4 characters of
`period`) and `year` (last 2 characters of `period`), and project onto the
five output columns. -/
def transformBody (transformed_data : Table) : Table :=
  let d1 := dropnaPrice transformed_data
  let d2 := filterSector d1
  let d3 := assignColumn d2 "month" (fun r => strSliceTake 4 (cellAt d2.cols r "period"))
  let d4 := assignColumn d3 "year" (fun r => strSliceTakeRight 2 (cellAt d3.cols r "period"))
  selectCols d4 output_columns

/-- `transformBody` with the final projection modelled faithfully for
duplicate labels (`selectColsPd`): identical to `transformBody` whenever
each output label occurs at most once in the working frame. -/
def transformBodyPd (transformed_data : Table) : Table :=
  let d1 := dropnaPrice transformed_data
  let d2 := filterSector d1
  let d3 := assignColumn d2 "month" (fun r => strSliceTake 4 (cellAt d2.cols r "period"))
  let d4 := assignColumn d3 "year" (fun r => strSliceTakeRight 2 (cellAt d3.cols r "period"))
  selectColsPd d4 output_columns

/-- `transform_electricity_sales_data` (the second, final definition in the
source): normalize column aliases on a copy (`normalizeColumns raw_data` is
the working copy `transformed_data`), validate the schema, then run the
filtering, derivation and projection steps of `transformBody`. -/
def transform_electricity_sales_data (raw_data : Table) :
    Except TransformError Table :=
  if !(required_columns.any fun col => (normalizeColumns raw_data).cols.contains col) then
    Except.error (TransformError.SchemaMismatch required_columns raw_data.cols)
  else if !(required_columns.all fun col => (normalizeColumns raw_data).cols.contains col) then
    Except.error (TransformError.MissingColumns
      (required_columns.filter fun col => !((normalizeColumns raw_data).cols.contains col)))
  else
    Except.ok (transformBody (normalizeColumns raw_data))

/-- `transform_electricity_sales_data` with the final projection modelled
faithfully for duplicate labels: when the rename loop creates a duplicate
among the selected labels (e.g. a raw frame containing both `Price-Units`
and `price-units`), pandas `df[[...]]` returns every matching column, so the
output can have more than five columns. All other steps of the pipeline read
only labels that are unique in such frames. -/
def transform_electricity_sales_data_pd (raw_data : Table) :
    Except TransformError Table :=
  if !(required_columns.any fun col => (normalizeColumns raw_data).cols.contains col) then
    Except.error (TransformError.SchemaMismatch required_columns raw_data.cols)
  else if !(required_columns.all fun col => (normalizeColumns raw_data).cols.contains col) then
    Except.error (TransformError.MissingColumns
      (required_columns.filter fun col => !((normalizeColumns raw_data).cols.contains col)))
  else
    Except.ok (transformBodyPd (normalizeColumns raw_data))

/-- The shape of one output row of the transform, as a function of the
normalized input columns and the surviving input row: `year`, `month`,
`stateid`, `price`, `price-units` in output order. -/
def outRowOf (cols : List String) (r : List Value) : List Value :=
  [strSliceTakeRight 2 (cellAt cols r "period"),
   strSliceTake 4 (cellAt cols r "period"),
   cellAt cols r "stateid",
   cellAt cols r "price",
   cellAt cols r "price-units"]

/-- The surviving rows of a transform input: those with a non-NA `price`,
then those in the residential/transportation sectors, in input order. -/
def keptRows (t : Table) : List (List Value) :=
  ((normalizeColumns t).rows.filter (priceOK (normalizeColumns t).cols)).filter
    (sectorOK (normalizeColumns t).cols)

/-- The heap of live DataFrame objects of a run: Python names hold references
(indices) into it. Used to state the copy-on-transform property, which is
about object identity and in-place mutation. -/
structure PdState where
  dfs : List Table
deriving DecidableEq, Repr

/-- Dereference a DataFrame. -/
def PdState.get (s : PdState) (ref : Nat) : Table := s.dfs.getD ref ⟨[], []⟩

/-- Allocate a fresh DataFrame object, returning the new heap and its
reference. -/
def PdState.alloc (s : PdState) (t : Table) : PdState × Nat :=
  (⟨s.dfs ++ [t]⟩, s.dfs.length)

/-- Overwrite the DataFrame object at `ref` (an in-place mutation such as
`rename(..., inplace=True)`, `dropna(..., inplace=True)` or `df[c] = ...`). -/
def PdState.setRef (s : PdState) (ref : Nat) (t : Table) : PdState :=
  ⟨s.dfs.set ref t⟩

/-- The rename loop acting on the heap: each `rename(..., inplace=True)`
mutates the working DataFrame at `td`. -/
def renameLoop (td : Nat) (s : PdState) : PdState :=
  column_mapping.foldl
    (fun s2 p => if (s2.get td).cols.contains p.1
                 then s2.setRef td (renameColumn (s2.get td) p.1 p.2) else s2) s

/-- `transformed_data.dropna(subset=[price], inplace=True)` on the heap:
mutates the object at `td`. -/
def dropnaStage (td : Nat) (s : PdState) : PdState :=
  s.setRef td (dropnaPrice (s.get td))

/-- Boolean-mask filtering `df[df[sectorName].isin(...)]` on the heap:
allocates a new DataFrame; returns the heap and the new reference. -/
def filterStage (td : Nat) (s : PdState) : PdState × Nat :=
  s.alloc (filterSector (s.get td))

/-- `df[month] = df[period].str[:4]` on the heap: mutates the object at
`te`. -/
def monthStage (te : Nat) (s : PdState) : PdState :=
  s.setRef te (assignColumn (s.get te) "month"
    (fun r => strSliceTake 4 (cellAt (s.get te).cols r "period")))

/-- `df[year] = df[period].str[-2:]` on the heap: mutates the object at
`te`. -/
def yearStage (te : Nat) (s : PdState) : PdState :=
  s.setRef te (assignColumn (s.get te) "year"
    (fun r => strSliceTakeRight 2 (cellAt (s.get te).cols r "period")))

/-- The final projection `df[[year, month, stateid, price, price-units]]` on
the heap: allocates a new DataFrame. -/
def projectStage (te : Nat) (s : PdState) : PdState × Nat :=
  s.alloc (selectCols (s.get te) output_columns)

/-- Validation and the post-validation pipeline of the stateful transform:
`td` is the working copy's reference, `raw` the caller's reference (used to
report the actual columns in the schema error). On failure the error
propagates with the heap as it stands; on success the result reference is
returned. -/
def postValidate (td raw : Nat) (s2 : PdState) :
    PdState × Except TransformError Nat :=
  if !(required_columns.any fun col => (s2.get td).cols.contains col) then
    (s2, Except.error (TransformError.SchemaMismatch required_columns (s2.get raw).cols))
  else if !(required_columns.all fun col => (s2.get td).cols.contains col) then
    (s2, Except.error (TransformError.MissingColumns
      (required_columns.filter fun col => !((s2.get td).cols.contains col))))
  else
    let p2 := filterStage td (dropnaStage td s2)
    let p3 := projectStage p2.2 (yearStage p2.2 (monthStage p2.2 p2.1))
    (p3.1, Except.ok p3.2)

/-- `transform_electricity_sales_data` with the DataFrame heap explicit:
`transformed_data = raw_data.copy()` allocates the working copy, the rename
loop, `dropna(inplace=True)` and the `month`/`year` assignments mutate the
object they are applied to, boolean-mask filtering and the final projection
allocate new objects. -/
def transformStateful (s0 : PdState) (raw : Nat) :
    PdState × Except TransformError Nat :=
  postValidate (s0.alloc (s0.get raw)).2 raw
    (renameLoop (s0.alloc (s0.get raw)).2 (s0.alloc (s0.get raw)).1)

/-- The failure cases of the tabular extractor: missing file
(`FileNotFoundError`) or unrecognized extension (the generic "invalid file
extension" exception). -/
inductive ExtractError where
  | NotFound : String → ExtractError
  | UnsupportedFormat : ExtractError
deriving DecidableEq, Repr

/-- Python `path.endswith(post)`, character-wise. -/
def strEndsWith (s post : String) : Bool :=
  post.data.isSuffixOf s.data

/-- `extract_tabular_data` (the second, final definition in the source): the
filesystem is a finite map from paths to the tables their contents parse to.
The existence check (`os.path.exists`) runs first; then `.csv` and
`.parquet` paths are read and any other extension is rejected. -/
def extract_tabular_data (fs : List (String × Table)) (file_path : String) :
    Except ExtractError Table :=
  match fs.lookup file_path with
  | none => Except.error (ExtractError.NotFound file_path)
  | some t =>
    if strEndsWith file_path ".csv" then Except.ok t
    else if strEndsWith file_path ".parquet" then Except.ok t
    else Except.error ExtractError.UnsupportedFormat

/-- The two-row example table of the spec's end-to-end test case. -/
def exampleTable : Table :=
  ⟨["period", "stateid", "sectorName", "price", "price-units"],
   [[Value.vstr "202301", Value.vstr "CA", Value.vstr "residential",
     Value.vnum (155 / 10), Value.vstr "cents per kWh"],
    [Value.vstr "202302", Value.vstr "NY", Value.vstr "residential",
     Value.vnull, Value.vstr "cents per kWh"]]⟩

/-- The single output row the spec's end-to-end test case expects. -/
def exampleOut : Table :=
  ⟨["year", "month", "stateid", "price", "price-units"],
   [[Value.vstr "01", Value.vstr "2023", Value.vstr "CA",
     Value.vnum (155 / 10), Value.vstr "cents per kWh"]]⟩

/-- The column set of a table whose fifth column is named `unit_price`:
despite the name suggesting a price, the alias table maps it to
`price-units` (only `UnitPrice` maps to `price`). -/
def unitPriceCols : List String :=
  ["period", "stateid", "sectorName", "price", "unit_price"]

/-- A raw table with unique headers (as `read_csv` produces) on which the
rename loop collides: both `Price-Units` and `price-units` are present, so
normalization yields two columns labeled `price-units` while validation
still passes. -/
def dupAliasTable : Table :=
  ⟨["period", "stateid", "sectorName", "price", "Price-Units", "price-units"],
   [[Value.vstr "202301", Value.vstr "CA", Value.vstr "residential",
     Value.vnum 1, Value.vstr "USD", Value.vstr "cents per kWh"]]⟩

/-- The table the duplicate-label-faithful transform returns for
`dupAliasTable`: six columns, with `price-units` twice (both duplicated
columns survive the final list-selection, in frame order). -/
def dupAliasOut : Table :=
  ⟨["year", "month", "stateid", "price", "price-units", "price-units"],
   [[Value.vstr "01", Value.vstr "2023", Value.vstr "CA",
     Value.vnum 1, Value.vstr "USD", Value.vstr "cents per kWh"]]⟩

/-! ## Basic lemmas about cells, assignment and normalization -/

theorem cellAt_nil_cols (r : List Value) (c : String) : cellAt [] r c = Value.vnull := by
  cases r <;> rfl

theorem cellAt_nil_row (cols : List String) (c : String) :
    cellAt cols [] c = Value.vnull := by
  cases cols <;> rfl

theorem cellAt_singleton (cx c : String) (x : Value) :
    cellAt [cx] [x] c = if cx = c then x else Value.vnull := rfl

theorem cellAt_not_contains (cols : List String) (r : List Value) (c : String)
    (h : c ∉ cols) : cellAt cols r c = Value.vnull := by
  induction cols generalizing r with
  | nil => exact cellAt_nil_cols r c
  | cons c0 cs ih =>
    cases r with
    | nil => exact cellAt_nil_row _ c
    | cons v vs =>
      have h0 : c0 ≠ c := fun he => h (he ▸ List.mem_cons_self c0 cs)
      have h1 : c ∉ cs := fun hm => h (List.mem_cons_of_mem _ hm)
      simp only [cellAt]
      rw [if_neg h0]
      exact ih vs h1

theorem setCell_length (cols : List String) (r : List Value) (c : String) (x : Value) :
    (setCell cols r c x).length = r.length := by
  induction cols generalizing r with
  | nil => rfl
  | cons c0 cs ih =>
    cases r with
    | nil => rfl
    | cons v vs =>
      simp only [setCell]
      by_cases h0 : c0 = c
      · simp [h0]
      · simp only [if_neg h0, List.length_cons, ih]

theorem cellAt_setCell_ne (cols : List String) (r : List Value) (c cx : String)
    (x : Value) (hne : c ≠ cx) :
    cellAt cols (setCell cols r cx x) c = cellAt cols r c := by
  induction cols generalizing r with
  | nil => rfl
  | cons c0 cs ih =>
    cases r with
    | nil => rfl
    | cons v vs =>
      simp only [setCell]
      by_cases h0 : c0 = cx
      · subst h0
        rw [if_pos rfl]
        simp only [cellAt]
        rw [if_neg (fun h => hne h.symm), if_neg (fun h => hne h.symm)]
      · rw [if_neg h0]
        simp only [cellAt]
        by_cases h1 : c0 = c
        · rw [if_pos h1, if_pos h1]
        · rw [if_neg h1, if_neg h1]
          exact ih vs

theorem cellAt_setCell_self (cols : List String) (r : List Value) (c : String)
    (x : Value) (hlen : r.length = cols.length) (hc : c ∈ cols) :
    cellAt cols (setCell cols r c x) c = x := by
  induction cols generalizing r with
  | nil => simp at hc
  | cons c0 cs ih =>
    cases r with
    | nil => simp at hlen
    | cons v vs =>
      simp only [setCell]
      by_cases h0 : c0 = c
      · rw [if_pos h0]
        simp only [cellAt]
        rw [if_pos h0]
      · rw [if_neg h0]
        simp only [cellAt]
        rw [if_neg h0]
        have hcs : c ∈ cs := by
          rcases List.mem_cons.mp hc with h | h
          · exact absurd h.symm h0
          · exact h
        exact ih vs (by simpa using hlen) hcs

theorem cellAt_append (cols cs2 : List String) (r vs2 : List Value) (c : String)
    (hlen : r.length = cols.length) :
    cellAt (cols ++ cs2) (r ++ vs2) c =
      if c ∈ cols then cellAt cols r c else cellAt cs2 vs2 c := by
  induction cols generalizing r with
  | nil =>
    have hr : r = [] := List.eq_nil_of_length_eq_zero hlen
    subst hr
    simp
  | cons c0 cs ih =>
    cases r with
    | nil => simp at hlen
    | cons v vs =>
      simp only [List.cons_append, cellAt, List.append_eq]
      by_cases h0 : c0 = c
      · rw [if_pos h0, if_pos (h0 ▸ List.mem_cons_self c0 cs)]
        rw [if_pos h0]
      · rw [if_neg h0, ih vs (by simpa using hlen)]
        by_cases h1 : c ∈ cs
        · rw [if_pos h1, if_pos (List.mem_cons_of_mem _ h1)]
          rw [if_neg h0]
        · rw [if_neg h1,
              if_neg (fun h => (List.mem_cons.mp h).elim (fun he => h0 he.symm) h1)]

theorem assignRowRes_length (cols : List String) (r : List Value) (c : String)
    (x : Value) (hlen : r.length = cols.length) :
    (assignRowRes cols c x r).length = (assignColsRes cols c).length := by
  unfold assignRowRes assignColsRes
  by_cases hc : cols.contains c = true
  · rw [if_pos hc, if_pos hc, setCell_length]
    exact hlen
  · rw [if_neg hc, if_neg hc]
    simp [hlen]

theorem cellAt_assign_ne (cols : List String) (r : List Value) (c cx : String)
    (x : Value) (hlen : r.length = cols.length) (hne : c ≠ cx) :
    cellAt (assignColsRes cols cx) (assignRowRes cols cx x r) c = cellAt cols r c := by
  unfold assignRowRes assignColsRes
  by_cases hc : cols.contains cx = true
  · rw [if_pos hc, if_pos hc]
    exact cellAt_setCell_ne cols r c cx x hne
  · rw [if_neg hc, if_neg hc]
    rw [cellAt_append cols [cx] r [x] c hlen]
    by_cases hcc : c ∈ cols
    · rw [if_pos hcc]
    · rw [if_neg hcc, cellAt_not_contains cols r c hcc, cellAt_singleton]
      rw [if_neg (fun h => hne h.symm)]

theorem cellAt_assign_self (cols : List String) (r : List Value) (cx : String)
    (x : Value) (hlen : r.length = cols.length) :
    cellAt (assignColsRes cols cx) (assignRowRes cols cx x r) cx = x := by
  unfold assignRowRes assignColsRes
  by_cases hc : cols.contains cx = true
  · rw [if_pos hc, if_pos hc]
    exact cellAt_setCell_self cols r cx x hlen (List.elem_iff.mp hc)
  · rw [if_neg hc, if_neg hc]
    rw [cellAt_append cols [cx] r [x] cx hlen]
    rw [if_neg (fun hm => hc (List.elem_iff.mpr hm)), cellAt_singleton, if_pos rfl]

theorem normalizeColumns_rows (t : Table) : (normalizeColumns t).rows = t.rows := by
  unfold normalizeColumns
  generalize column_mapping = l
  induction l generalizing t with
  | nil => rfl
  | cons p ps ih =>
    simp only [List.foldl_cons]
    by_cases hc : t.cols.contains p.1
    · simp only [if_pos hc]
      exact ih (renameColumn t p.1 p.2)
    · simp only [if_neg hc]
      exact ih t

theorem normalizeColumns_cols_length (t : Table) :
    (normalizeColumns t).cols.length = t.cols.length := by
  unfold normalizeColumns
  generalize column_mapping = l
  induction l generalizing t with
  | nil => rfl
  | cons p ps ih =>
    simp only [List.foldl_cons]
    by_cases hc : t.cols.contains p.1
    · simp only [if_pos hc]
      rw [ih (renameColumn t p.1 p.2)]
      simp [renameColumn]
    · simp only [if_neg hc]
      exact ih t

theorem Table.eq_of_parts (a b : Table) (h1 : a.cols = b.cols) (h2 : a.rows = b.rows) :
    a = b := by
  cases a
  cases b
  cases h1
  cases h2
  rfl

theorem normalizeColumns_cols (t : Table) : (normalizeColumns t).cols = normCols t.cols := by
  unfold normalizeColumns normCols
  generalize column_mapping = l
  induction l generalizing t with
  | nil => rfl
  | cons p ps ih =>
    simp only [List.foldl_cons]
    by_cases hc : t.cols.contains p.1 = true
    · rw [if_pos hc, if_pos hc]
      exact ih (renameColumn t p.1 p.2)
    · rw [if_neg hc, if_neg hc]
      exact ih t

theorem normalizeColumns_eq (t : Table) :
    normalizeColumns t = ⟨normCols t.cols, t.rows⟩ := by
  have h1 := normalizeColumns_cols t
  have h2 := normalizeColumns_rows t
  cases hh : normalizeColumns t with
  | mk C R =>
    rw [hh] at h1 h2
    change C = normCols t.cols at h1
    change R = t.rows at h2
    rw [h1, h2]

theorem normalizeColumns_WF (t : Table) (h : t.WF) : (normalizeColumns t).WF := by
  intro r hr
  rw [normalizeColumns_rows] at hr
  rw [normalizeColumns_cols_length]
  exact h r hr

/-! ## The shape of a successful transform -/

theorem dropnaPrice_cols (t : Table) : (dropnaPrice t).cols = t.cols := rfl

theorem dropnaPrice_rows (t : Table) :
    (dropnaPrice t).rows = t.rows.filter (priceOK t.cols) := rfl

theorem filterSector_cols (t : Table) : (filterSector t).cols = t.cols := rfl

theorem filterSector_rows (t : Table) :
    (filterSector t).rows = t.rows.filter (sectorOK t.cols) := rfl

theorem assignColumn_cols (t : Table) (c : String) (f : List Value → Value) :
    (assignColumn t c f).cols = assignColsRes t.cols c := rfl

theorem assignColumn_rows (t : Table) (c : String) (f : List Value → Value) :
    (assignColumn t c f).rows = t.rows.map (fun r => assignRowRes t.cols c (f r) r) := rfl

theorem selectCols_eq (t : Table) (cs : List String) :
    selectCols t cs = ⟨cs, t.rows.map (fun r => cs.map (fun c => cellAt t.cols r c))⟩ := rfl

theorem outRow_cells (cols : List String) (r : List Value) (hlen : r.length = cols.length) :
    output_columns.map (fun c =>
      cellAt (assignColsRes (assignColsRes cols "month") "year")
        (assignRowRes (assignColsRes cols "month") "year"
          (strSliceTakeRight 2
            (cellAt (assignColsRes cols "month")
              (assignRowRes cols "month" (strSliceTake 4 (cellAt cols r "period")) r)
              "period"))
          (assignRowRes cols "month" (strSliceTake 4 (cellAt cols r "period")) r)) c)
      = outRowOf cols r := by
  have h2 : (assignRowRes cols "month" (strSliceTake 4 (cellAt cols r "period")) r).length
      = (assignColsRes cols "month").length :=
    assignRowRes_length cols r "month" _ hlen
  have hper : cellAt (assignColsRes cols "month")
      (assignRowRes cols "month" (strSliceTake 4 (cellAt cols r "period")) r) "period"
      = cellAt cols r "period" :=
    cellAt_assign_ne cols r "period" "month" _ hlen (by decide)
  simp only [output_columns, List.map_cons, List.map_nil, outRowOf]
  rw [cellAt_assign_self _ _ "year" _ h2]
  rw [cellAt_assign_ne _ _ "month" "year" _ h2 (by decide),
      cellAt_assign_self _ _ "month" _ hlen]
  rw [cellAt_assign_ne _ _ "stateid" "year" _ h2 (by decide),
      cellAt_assign_ne _ _ "stateid" "month" _ hlen (by decide)]
  rw [cellAt_assign_ne _ _ "price" "year" _ h2 (by decide),
      cellAt_assign_ne _ _ "price" "month" _ hlen (by decide)]
  rw [cellAt_assign_ne _ _ "price-units" "year" _ h2 (by decide),
      cellAt_assign_ne _ _ "price-units" "month" _ hlen (by decide)]
  rw [hper]

theorem transformBody_eq (n : Table) (hwfn : n.WF) :
    transformBody n = ⟨output_columns,
      ((n.rows.filter (priceOK n.cols)).filter (sectorOK n.cols)).map (outRowOf n.cols)⟩ := by
  unfold transformBody
  simp only [dropnaPrice_cols, dropnaPrice_rows, filterSector_cols, filterSector_rows,
    assignColumn_cols, assignColumn_rows, selectCols_eq, List.map_map, Table.mk.injEq]
  refine ⟨trivial, ?_⟩
  apply List.map_congr_left
  intro r hr
  have hmem : r ∈ n.rows := (List.mem_filter.mp (List.mem_filter.mp hr).1).1
  exact outRow_cells n.cols r (hwfn r hmem)

theorem transform_eq_of_all (t : Table) (hwf : t.WF)
    (hall : (required_columns.all fun col =>
      (normalizeColumns t).cols.contains col) = true) :
    transform_electricity_sales_data t =
      Except.ok ⟨output_columns, (keptRows t).map (outRowOf (normalizeColumns t).cols)⟩ := by
  have hany : (required_columns.any fun col =>
      (normalizeColumns t).cols.contains col) = true := by
    have hp := List.all_eq_true.mp hall "period" (by simp [required_columns])
    exact List.any_eq_true.mpr ⟨"period", by simp [required_columns], hp⟩
  have h1 : (!(required_columns.any fun col =>
      (normalizeColumns t).cols.contains col)) ≠ true := by
    rw [hany]; decide
  have h2 : (!(required_columns.all fun col =>
      (normalizeColumns t).cols.contains col)) ≠ true := by
    rw [hall]; decide
  unfold transform_electricity_sales_data
  rw [if_neg h1, if_neg h2]
  rw [transformBody_eq (normalizeColumns t) (normalizeColumns_WF t hwf)]
  rfl

theorem transform_ok_elim (t u : Table) (hwf : t.WF)
    (h : transform_electricity_sales_data t = Except.ok u) :
    u = ⟨output_columns, (keptRows t).map (outRowOf (normalizeColumns t).cols)⟩ := by
  by_cases hall : (required_columns.all fun col =>
      (normalizeColumns t).cols.contains col) = true
  · rw [transform_eq_of_all t hwf hall] at h
    exact (Except.ok.inj h).symm
  · have hallf : (required_columns.all fun col =>
        (normalizeColumns t).cols.contains col) = false := by
      cases hv : (required_columns.all fun col => (normalizeColumns t).cols.contains col)
      · rfl
      · exact absurd hv hall
    unfold transform_electricity_sales_data at h
    by_cases hany : (required_columns.any fun col =>
        (normalizeColumns t).cols.contains col) = true
    · have hc1 : (!(required_columns.any fun col =>
          (normalizeColumns t).cols.contains col)) ≠ true := by
        rw [hany]; decide
      have hc2 : (!(required_columns.all fun col =>
          (normalizeColumns t).cols.contains col)) = true := by
        rw [hallf]; rfl
      rw [if_neg hc1, if_pos hc2] at h
      exact Except.noConfusion h
    · have hanyf : (required_columns.any fun col =>
          (normalizeColumns t).cols.contains col) = false := by
        cases hv : (required_columns.any fun col => (normalizeColumns t).cols.contains col)
        · rfl
        · exact absurd hv hany
      have hc1 : (!(required_columns.any fun col =>
          (normalizeColumns t).cols.contains col)) = true := by
        rw [hanyf]; rfl
      rw [if_pos hc1] at h
      exact Except.noConfusion h

theorem cellAt_outRow_year (cols : List String) (r : List Value) :
    cellAt output_columns (outRowOf cols r) "year" =
      strSliceTakeRight 2 (cellAt cols r "period") := rfl

theorem cellAt_outRow_month (cols : List String) (r : List Value) :
    cellAt output_columns (outRowOf cols r) "month" =
      strSliceTake 4 (cellAt cols r "period") := rfl

theorem cellAt_outRow_price (cols : List String) (r : List Value) :
    cellAt output_columns (outRowOf cols r) "price" = cellAt cols r "price" := rfl

theorem cellAt_outRow_priceUnits (cols : List String) (r : List Value) :
    cellAt output_columns (outRowOf cols r) "price-units" =
      cellAt cols r "price-units" := rfl

/-! ## Claims about the transform invariants (C1, C2, C3) -/

/-- C1: for every input table accepted by the transform, no row of the
returned table has a null value in the `price` column — every input row
whose `price` is null is dropped and only projections of non-null-price rows
reach the output. -/
theorem transform_output_no_null_price (t u : Table) (hwf : t.WF)
    (h : transform_electricity_sales_data t = Except.ok u) :
    ∀ row ∈ u.rows, cellAt u.cols row "price" ≠ Value.vnull := by
  have hu := transform_ok_elim t u hwf h
  obtain ⟨N, hN⟩ : ∃ N, normalizeColumns t = N := ⟨_, rfl⟩
  obtain ⟨K, hK⟩ : ∃ K, keptRows t = K := ⟨_, rfl⟩
  rw [hN, hK] at hu
  subst hu
  intro row hrow
  obtain ⟨r, hr, hrw⟩ := List.mem_map.mp hrow
  subst hrw
  rw [← hK] at hr
  unfold keptRows at hr
  rw [hN] at hr
  have hp : priceOK N.cols r = true :=
    (List.mem_filter.mp (List.mem_filter.mp hr).1).2
  show cellAt output_columns (outRowOf N.cols r) "price" ≠ Value.vnull
  rw [cellAt_outRow_price]
  exact of_decide_eq_true hp

/-- C1 witness: on the spec's concrete two-row example the hypotheses hold
and no output row has a null price. -/
theorem transform_output_no_null_price_witness :
    exampleTable.WF ∧
    transform_electricity_sales_data exampleTable = Except.ok exampleOut ∧
    (∀ row ∈ exampleOut.rows, cellAt exampleOut.cols row "price" ≠ Value.vnull) :=
  ⟨by decide, by rfl,
   transform_output_no_null_price exampleTable exampleOut (by decide) (by rfl)⟩

/-- C2: every row of an accepted transform's output derives from an input
row whose (normalized) `sectorName` is exactly `"residential"` or exactly
`"transportation"`; rows with any other sector value are excluded. -/
theorem transform_output_sector_restricted (t u : Table) (hwf : t.WF)
    (h : transform_electricity_sales_data t = Except.ok u) :
    ∀ row ∈ u.rows, ∃ r ∈ t.rows,
      (cellAt (normalizeColumns t).cols r "sectorName" = Value.vstr "residential" ∨
       cellAt (normalizeColumns t).cols r "sectorName" = Value.vstr "transportation") ∧
      row = outRowOf (normalizeColumns t).cols r := by
  have hu := transform_ok_elim t u hwf h
  obtain ⟨N, hN⟩ : ∃ N, normalizeColumns t = N := ⟨_, rfl⟩
  obtain ⟨K, hK⟩ : ∃ K, keptRows t = K := ⟨_, rfl⟩
  rw [hN, hK] at hu
  subst hu
  rw [hN]
  intro row hrow
  obtain ⟨r, hr, hrw⟩ := List.mem_map.mp hrow
  rw [← hK] at hr
  unfold keptRows at hr
  rw [hN] at hr
  have hs : sectorOK N.cols r = true := (List.mem_filter.mp hr).2
  have hmem : r ∈ t.rows := by
    have hmem2 := (List.mem_filter.mp (List.mem_filter.mp hr).1).1
    rw [← hN] at hmem2
    rwa [normalizeColumns_rows] at hmem2
  exact ⟨r, hmem, of_decide_eq_true hs, hrw.symm⟩

/-- C2 witness: concrete instantiation on the spec's example table. -/
theorem transform_output_sector_restricted_witness :
    exampleTable.WF ∧
    transform_electricity_sales_data exampleTable = Except.ok exampleOut ∧
    (∀ row ∈ exampleOut.rows, ∃ r ∈ exampleTable.rows,
      (cellAt (normalizeColumns exampleTable).cols r "sectorName" = Value.vstr "residential" ∨
       cellAt (normalizeColumns exampleTable).cols r "sectorName" = Value.vstr "transportation") ∧
      row = outRowOf (normalizeColumns exampleTable).cols r) :=
  ⟨by decide, by rfl,
   transform_output_sector_restricted exampleTable exampleOut (by decide) (by rfl)⟩

/-- C3: for every output row of an accepted transform there is a source
input row such that, whenever that row's `period` is a string of length at
least 6, the output `month` field is its first 4 characters and the output
`year` field is its last 2 characters. -/
theorem transform_month_year_fields (t u : Table) (hwf : t.WF)
    (h : transform_electricity_sales_data t = Except.ok u) :
    ∀ row ∈ u.rows, ∃ r ∈ t.rows, row = outRowOf (normalizeColumns t).cols r ∧
      ∀ s : String, cellAt (normalizeColumns t).cols r "period" = Value.vstr s →
        6 ≤ s.length →
        cellAt u.cols row "month" = Value.vstr (s.take 4) ∧
        cellAt u.cols row "year" = Value.vstr (s.takeRight 2) := by
  have hu := transform_ok_elim t u hwf h
  obtain ⟨N, hN⟩ : ∃ N, normalizeColumns t = N := ⟨_, rfl⟩
  obtain ⟨K, hK⟩ : ∃ K, keptRows t = K := ⟨_, rfl⟩
  rw [hN, hK] at hu
  subst hu
  rw [hN]
  intro row hrow
  obtain ⟨r, hr, hrw⟩ := List.mem_map.mp hrow
  rw [← hK] at hr
  unfold keptRows at hr
  rw [hN] at hr
  have hmem : r ∈ t.rows := by
    have hmem2 := (List.mem_filter.mp (List.mem_filter.mp hr).1).1
    rw [← hN] at hmem2
    rwa [normalizeColumns_rows] at hmem2
  refine ⟨r, hmem, hrw.symm, ?_⟩
  intro s hs _
  subst hrw
  constructor
  · show cellAt output_columns (outRowOf N.cols r) "month" = _
    rw [cellAt_outRow_month, hs]
    rfl
  · show cellAt output_columns (outRowOf N.cols r) "year" = _
    rw [cellAt_outRow_year, hs]
    rfl

/-- C3 witness: concrete instantiation on the spec's example table, where the
surviving row has period `"202301"` (length 6), month `"2023"`, year `"01"`. -/
theorem transform_month_year_fields_witness :
    exampleTable.WF ∧
    transform_electricity_sales_data exampleTable = Except.ok exampleOut ∧
    (∀ row ∈ exampleOut.rows, ∃ r ∈ exampleTable.rows,
      row = outRowOf (normalizeColumns exampleTable).cols r ∧
      ∀ s : String, cellAt (normalizeColumns exampleTable).cols r "period" = Value.vstr s →
        6 ≤ s.length →
        cellAt exampleOut.cols row "month" = Value.vstr (s.take 4) ∧
        cellAt exampleOut.cols row "year" = Value.vstr (s.takeRight 2)) :=
  ⟨by decide, by rfl,
   transform_month_year_fields exampleTable exampleOut (by decide) (by rfl)⟩

/-! ## Validation errors (C4) and the end-to-end example (C6) -/

/-- C4: after column normalization, the transform fails with `SchemaMismatch`
(reporting the expected set and the actual input columns) when none of the
five canonical columns is present; it fails with `MissingColumns` naming
exactly the missing canonical columns when some but not all are present; in
particular, with the other four canonical columns present and `price`
absent, it fails with `MissingColumns` naming exactly `price`. -/
theorem transform_validation_errors (t : Table) :
    ((required_columns.any fun col =>
        (normalizeColumns t).cols.contains col) = false →
      transform_electricity_sales_data t =
        Except.error (TransformError.SchemaMismatch required_columns t.cols)) ∧
    ((required_columns.any fun col =>
        (normalizeColumns t).cols.contains col) = true →
     (required_columns.all fun col =>
        (normalizeColumns t).cols.contains col) = false →
      transform_electricity_sales_data t =
        Except.error (TransformError.MissingColumns
          (required_columns.filter fun col =>
            !((normalizeColumns t).cols.contains col)))) ∧
    ((["period", "stateid", "sectorName", "price-units"].all fun col =>
        (normalizeColumns t).cols.contains col) = true →
     (normalizeColumns t).cols.contains "price" = false →
      transform_electricity_sales_data t =
        Except.error (TransformError.MissingColumns ["price"])) := by
  refine ⟨?_, ?_, ?_⟩
  · intro ha
    have h1 : (!(required_columns.any fun col =>
        (normalizeColumns t).cols.contains col)) = true := by rw [ha]; rfl
    unfold transform_electricity_sales_data
    rw [if_pos h1]
  · intro ha hb
    have h1 : (!(required_columns.any fun col =>
        (normalizeColumns t).cols.contains col)) ≠ true := by rw [ha]; decide
    have h2 : (!(required_columns.all fun col =>
        (normalizeColumns t).cols.contains col)) = true := by rw [hb]; rfl
    unfold transform_electricity_sales_data
    rw [if_neg h1, if_pos h2]
  · intro h4 hp
    simp only [List.all_cons, List.all_nil, Bool.and_eq_true, Bool.and_true] at h4
    obtain ⟨hper, hsta, hsec, hpu⟩ := h4
    have ha : (required_columns.any fun col =>
        (normalizeColumns t).cols.contains col) = true := by
      simp only [required_columns, List.any_cons, List.any_nil, hper, Bool.true_or]
    have hb : (required_columns.all fun col =>
        (normalizeColumns t).cols.contains col) = false := by
      simp only [required_columns, List.all_cons, List.all_nil, hper, hsta, hsec, hpu, hp,
        Bool.true_and, Bool.false_and, Bool.and_true, Bool.and_false]
    have h1 : (!(required_columns.any fun col =>
        (normalizeColumns t).cols.contains col)) ≠ true := by rw [ha]; decide
    have h2 : (!(required_columns.all fun col =>
        (normalizeColumns t).cols.contains col)) = true := by rw [hb]; rfl
    unfold transform_electricity_sales_data
    rw [if_neg h1, if_pos h2]
    have hfil : (required_columns.filter fun col =>
        !((normalizeColumns t).cols.contains col)) = ["price"] := by
      simp only [required_columns, List.filter, hper, hsta, hsec, hpu, hp,
        Bool.not_true, Bool.not_false]
    rw [hfil]

/-- C4 witness: concrete tables exercising all three validation failures. -/
theorem transform_validation_errors_witness :
    transform_electricity_sales_data ⟨["foo"], []⟩ =
      Except.error (TransformError.SchemaMismatch required_columns ["foo"]) ∧
    transform_electricity_sales_data ⟨["period"], []⟩ =
      Except.error (TransformError.MissingColumns
        ["stateid", "sectorName", "price", "price-units"]) ∧
    transform_electricity_sales_data ⟨["period", "stateid", "sectorName", "price-units"], []⟩ =
      Except.error (TransformError.MissingColumns ["price"]) :=
  ⟨(transform_validation_errors ⟨["foo"], []⟩).1 (by rfl),
   (transform_validation_errors ⟨["period"], []⟩).2.1 (by rfl) (by rfl),
   (transform_validation_errors ⟨["period", "stateid", "sectorName", "price-units"], []⟩).2.2
     (by rfl) (by rfl)⟩

/-- C6: on the spec's concrete two-row input (a residential CA row with
period `"202301"` and price 15.5, and a residential NY row with a null
price), the transform returns exactly one row
`(year="01", month="2023", stateid="CA", price=15.5,
price-units="cents per kWh")`. -/
theorem transform_example_case :
    transform_electricity_sales_data exampleTable = Except.ok exampleOut := by rfl

/-! ## Alias renaming when canonical and alias are both present (C7) -/

/-- C7 counterexample: with both the alias `Price` and the canonical `price`
present, the rename loop is NOT skipped — the alias column is renamed anyway,
leaving two columns labeled `price` (the canonical column set is changed and
a duplicate label is created). -/
theorem alias_conflict_counterexample :
    (normalizeColumns ⟨["Price", "price"], []⟩).cols = ["price", "price"] ∧
    (normalizeColumns ⟨["Price", "price"], []⟩).cols ≠ ["Price", "price"] ∧
    ((normalizeColumns ⟨["Price", "price"], []⟩).cols.count "price" = 2) := by
  refine ⟨by rfl, by decide, by rfl⟩

/-- C7 amended: for every alias pair of the table and any row data, when both
the alias and its canonical name are the (only) columns, normalization
renames the alias unconditionally, producing a duplicate canonical label;
the cell values are untouched. -/
theorem alias_rename_unconditional (p : String × String) (hp : p ∈ column_mapping)
    (rows : List (List Value)) :
    normalizeColumns ⟨[p.1, p.2], rows⟩ = ⟨[p.2, p.2], rows⟩ := by
  refine Table.eq_of_parts _ _ ?_ (normalizeColumns_rows _)
  rw [normalizeColumns_cols]
  show normCols [p.1, p.2] = [p.2, p.2]
  simp only [column_mapping, List.mem_cons, List.not_mem_nil, or_false] at hp
  rcases hp with rfl | rfl | rfl | rfl | rfl | rfl | rfl | rfl | rfl | rfl | rfl <;> rfl

/-- C7 amended witness: the `Price`/`price` instance. -/
theorem alias_rename_unconditional_witness :
    ("Price", "price") ∈ column_mapping ∧
    normalizeColumns ⟨["Price", "price"], [[Value.vnum 1, Value.vnum 2]]⟩ =
      ⟨["price", "price"], [[Value.vnum 1, Value.vnum 2]]⟩ :=
  ⟨by decide,
   alias_rename_unconditional ("Price", "price") (by decide) [[Value.vnum 1, Value.vnum 2]]⟩

/-! ## Projection with duplicate labels, idempotence and output shape (C8) -/

theorem selectCols_self (t : Table) (hwf : t.WF) (hcols : t.cols = output_columns) :
    selectCols t output_columns = t := by
  obtain ⟨cols, rows⟩ := t
  simp only at hcols
  subst hcols
  rw [selectCols_eq]
  refine congrArg (Table.mk output_columns) ?_
  conv_rhs => rw [← List.map_id rows]
  apply List.map_congr_left
  intro r hr
  have hlen : r.length = 5 := hwf r hr
  rcases r with _ | ⟨a, _ | ⟨b, _ | ⟨c, _ | ⟨d, _ | ⟨e, rest⟩⟩⟩⟩⟩
  · simp only [List.length_nil] at hlen
    omega
  · simp only [List.length_cons, List.length_nil] at hlen
    omega
  · simp only [List.length_cons, List.length_nil] at hlen
    omega
  · simp only [List.length_cons, List.length_nil] at hlen
    omega
  · simp only [List.length_cons, List.length_nil] at hlen
    omega
  · have hrest : rest = [] := by
      simp only [List.length_cons] at hlen
      exact List.eq_nil_of_length_eq_zero (by omega)
    subst hrest
    rfl

theorem selectAllCells_nil_of_not_mem (cols : List String) (r : List Value) (c : String)
    (h : c ∉ cols) : selectAllCells cols r c = [] := by
  induction cols generalizing r with
  | nil => cases r <;> rfl
  | cons c0 cs ih =>
    cases r with
    | nil => rfl
    | cons v vs =>
      have h0 : c0 ≠ c := fun he => h (he ▸ List.mem_cons_self c0 cs)
      have h1 : c ∉ cs := fun hm => h (List.mem_cons_of_mem _ hm)
      simp only [selectAllCells]
      rw [if_neg h0]
      exact ih vs h1

theorem selectAllCells_count_one (cols : List String) (r : List Value) (c : String)
    (hlen : r.length = cols.length) (hcnt : cols.count c = 1) :
    selectAllCells cols r c = [cellAt cols r c] := by
  induction cols generalizing r with
  | nil => simp at hcnt
  | cons c0 cs ih =>
    cases r with
    | nil => simp at hlen
    | cons v vs =>
      simp only [selectAllCells, cellAt]
      rw [List.count_cons] at hcnt
      by_cases h0 : c0 = c
      · rw [if_pos h0, if_pos h0]
        have hz : cs.count c = 0 := by
          have hbe : (c0 == c) = true := beq_iff_eq.mpr h0
          rw [hbe, if_pos rfl] at hcnt
          omega
        rw [selectAllCells_nil_of_not_mem cs vs c (List.count_eq_zero.mp hz)]
      · rw [if_neg h0, if_neg h0]
        have hbe : (c0 == c) = false := beq_eq_false_iff_ne.mpr h0
        rw [hbe, if_neg (by decide)] at hcnt
        exact ih vs (by simpa using hlen) (by omega)

theorem filter_eq_of_count_one (cols : List String) (c : String) (h : cols.count c = 1) :
    cols.filter (fun c0 => c0 == c) = [c] := by
  rw [List.filter_beq, h]
  rfl

theorem flatMap_filter_eq_self (cols : List String) :
    ∀ cs : List String, (∀ c ∈ cs, cols.count c = 1) →
      cs.flatMap (fun c => cols.filter (fun c0 => c0 == c)) = cs := by
  intro cs
  induction cs with
  | nil => intro _; rfl
  | cons c cs2 ih =>
    intro hcnt
    rw [List.flatMap_cons, filter_eq_of_count_one cols c (hcnt c (List.mem_cons_self c cs2)),
        ih (fun c2 h2 => hcnt c2 (List.mem_cons_of_mem _ h2))]
    rfl

theorem flatMap_selectAll_eq_map (cols : List String) (r : List Value)
    (hlen : r.length = cols.length) :
    ∀ cs : List String, (∀ c ∈ cs, cols.count c = 1) →
      cs.flatMap (fun c => selectAllCells cols r c) = cs.map (fun c => cellAt cols r c) := by
  intro cs
  induction cs with
  | nil => intro _; rfl
  | cons c cs2 ih =>
    intro hcnt
    rw [List.flatMap_cons,
        selectAllCells_count_one cols r c hlen (hcnt c (List.mem_cons_self c cs2)),
        ih (fun c2 h2 => hcnt c2 (List.mem_cons_of_mem _ h2))]
    rfl

/-- Where every requested label occurs exactly once in the frame, the
duplicate-label-faithful selection and the first-match selection coincide. -/
theorem selectColsPd_eq_selectCols (t : Table) (cs : List String) (hwf : t.WF)
    (hcnt : ∀ c ∈ cs, t.cols.count c = 1) :
    selectColsPd t cs = selectCols t cs := by
  apply Table.eq_of_parts
  · exact flatMap_filter_eq_self t.cols cs hcnt
  · show t.rows.map (fun r => cs.flatMap (fun c => selectAllCells t.cols r c))
        = t.rows.map (fun r => cs.map (fun c => cellAt t.cols r c))
    apply List.map_congr_left
    intro r hr
    exact flatMap_selectAll_eq_map t.cols r (hwf r hr) cs hcnt

theorem dropnaPrice_WF (t : Table) (h : t.WF) : (dropnaPrice t).WF := by
  intro r hr
  exact h r (List.mem_filter.mp hr).1

theorem filterSector_WF (t : Table) (h : t.WF) : (filterSector t).WF := by
  intro r hr
  exact h r (List.mem_filter.mp hr).1

theorem assignColumn_WF (t : Table) (c : String) (f : List Value → Value) (h : t.WF) :
    (assignColumn t c f).WF := by
  intro r hr
  obtain ⟨r0, hr0, hrw⟩ := List.mem_map.mp hr
  subst hrw
  exact assignRowRes_length t.cols r0 c (f r0) (h r0 hr0)

theorem count_assignColsRes_ne (cols : List String) (cx c : String) (h : c ≠ cx) :
    (assignColsRes cols cx).count c = cols.count c := by
  unfold assignColsRes
  by_cases hc : cols.contains cx = true
  · rw [if_pos hc]
  · rw [if_neg hc]
    have hone : List.count c [cx] = 0 := by
      rw [List.count_cons, List.count_nil, beq_eq_false_iff_ne.mpr (fun he => h he.symm)]
      decide
    simp [List.count_append, hone]

theorem count_assignColsRes_self (cols : List String) (cx : String) :
    (assignColsRes cols cx).count cx =
      if cols.contains cx then cols.count cx else cols.count cx + 1 := by
  unfold assignColsRes
  by_cases hc : cols.contains cx = true
  · rw [if_pos hc, if_pos hc]
  · rw [if_neg hc, if_neg hc]
    have hone : List.count cx [cx] = 1 := by
      rw [List.count_cons, List.count_nil, beq_iff_eq.mpr rfl]
      decide
    simp [List.count_append, hone]

/-- After the `month` and `year` assignments, each output label occurs
exactly once in the columns, provided no output label was duplicated in the
normalized columns and the three untouched required labels are present. -/
theorem outLabelCounts (ncols : List String)
    (hcnt : ∀ c ∈ output_columns, ncols.count c ≤ 1)
    (hsta : "stateid" ∈ ncols) (hpr : "price" ∈ ncols) (hpu : "price-units" ∈ ncols) :
    ∀ c ∈ output_columns,
      (assignColsRes (assignColsRes ncols "month") "year").count c = 1 := by
  have hself : ∀ cx : String, cx ∈ output_columns → ncols.count cx ≤ 1 →
      (assignColsRes ncols cx).count cx = 1 := by
    intro cx _ hle
    rw [count_assignColsRes_self]
    by_cases hcx : ncols.contains cx = true
    · rw [if_pos hcx]
      have hpos : 0 < ncols.count cx := List.count_pos_iff.mpr (List.elem_iff.mp hcx)
      omega
    · rw [if_neg hcx]
      have hz : ncols.count cx = 0 :=
        List.count_eq_zero.mpr (fun hm => hcx (List.elem_iff.mpr hm))
      omega
  intro c hc
  simp only [output_columns, List.mem_cons, List.not_mem_nil, or_false] at hc
  rcases hc with rfl | rfl | rfl | rfl | rfl
  · -- year: assigned second
    have he : (assignColsRes ncols "month").count "year" = ncols.count "year" :=
      count_assignColsRes_ne ncols "month" "year" (by decide)
    rw [count_assignColsRes_self]
    by_cases hy : (assignColsRes ncols "month").contains "year" = true
    · rw [if_pos hy, he]
      have hpos : 0 < (assignColsRes ncols "month").count "year" :=
        List.count_pos_iff.mpr (List.elem_iff.mp hy)
      rw [he] at hpos
      have hle : ncols.count "year" ≤ 1 := hcnt "year" (by decide)
      omega
    · rw [if_neg hy, he]
      have hz : (assignColsRes ncols "month").count "year" = 0 :=
        List.count_eq_zero.mpr (fun hm => hy (List.elem_iff.mpr hm))
      rw [he] at hz
      omega
  · -- month: assigned first, preserved by the year assignment
    rw [count_assignColsRes_ne _ "year" "month" (by decide)]
    exact hself "month" (by decide) (hcnt "month" (by decide))
  · -- stateid
    rw [count_assignColsRes_ne _ "year" "stateid" (by decide),
        count_assignColsRes_ne _ "month" "stateid" (by decide)]
    have hpos : 0 < ncols.count "stateid" := List.count_pos_iff.mpr hsta
    have hle : ncols.count "stateid" ≤ 1 := hcnt "stateid" (by decide)
    omega
  · -- price
    rw [count_assignColsRes_ne _ "year" "price" (by decide),
        count_assignColsRes_ne _ "month" "price" (by decide)]
    have hpos : 0 < ncols.count "price" := List.count_pos_iff.mpr hpr
    have hle : ncols.count "price" ≤ 1 := hcnt "price" (by decide)
    omega
  · -- price-units
    rw [count_assignColsRes_ne _ "year" "price-units" (by decide),
        count_assignColsRes_ne _ "month" "price-units" (by decide)]
    have hpos : 0 < ncols.count "price-units" := List.count_pos_iff.mpr hpu
    have hle : ncols.count "price-units" ≤ 1 := hcnt "price-units" (by decide)
    omega

/-- Under duplicate-free output labels, the faithful body coincides with the
first-match body. -/
theorem transformBodyPd_eq_of_unique (n : Table) (hwfn : n.WF)
    (hcnt : ∀ c ∈ output_columns, n.cols.count c ≤ 1)
    (hsta : "stateid" ∈ n.cols) (hpr : "price" ∈ n.cols) (hpu : "price-units" ∈ n.cols) :
    transformBodyPd n = transformBody n := by
  have hwf2 : (filterSector (dropnaPrice n)).WF := filterSector_WF _ (dropnaPrice_WF _ hwfn)
  have hwf3 : (assignColumn (filterSector (dropnaPrice n)) "month"
      (fun r => strSliceTake 4 (cellAt (filterSector (dropnaPrice n)).cols r "period"))).WF :=
    assignColumn_WF _ _ _ hwf2
  have hwf4 : (assignColumn
      (assignColumn (filterSector (dropnaPrice n)) "month"
        (fun r => strSliceTake 4 (cellAt (filterSector (dropnaPrice n)).cols r "period")))
      "year"
      (fun r => strSliceTakeRight 2 (cellAt
        (assignColumn (filterSector (dropnaPrice n)) "month"
          (fun r2 => strSliceTake 4
            (cellAt (filterSector (dropnaPrice n)).cols r2 "period"))).cols r "period"))).WF :=
    assignColumn_WF _ _ _ hwf3
  have hcnt4 : ∀ c ∈ output_columns,
      (assignColumn
        (assignColumn (filterSector (dropnaPrice n)) "month"
          (fun r => strSliceTake 4 (cellAt (filterSector (dropnaPrice n)).cols r "period")))
        "year"
        (fun r => strSliceTakeRight 2 (cellAt
          (assignColumn (filterSector (dropnaPrice n)) "month"
            (fun r2 => strSliceTake 4
              (cellAt (filterSector (dropnaPrice n)).cols r2 "period"))).cols r "period"))).cols.count c
        = 1 := by
    intro c hc
    exact outLabelCounts n.cols hcnt hsta hpr hpu c hc
  unfold transformBodyPd transformBody
  show selectColsPd
      (assignColumn
        (assignColumn (filterSector (dropnaPrice n)) "month"
          (fun r => strSliceTake 4 (cellAt (filterSector (dropnaPrice n)).cols r "period")))
        "year"
        (fun r => strSliceTakeRight 2 (cellAt
          (assignColumn (filterSector (dropnaPrice n)) "month"
            (fun r2 => strSliceTake 4
              (cellAt (filterSector (dropnaPrice n)).cols r2 "period"))).cols r "period")))
      output_columns
    = selectCols
      (assignColumn
        (assignColumn (filterSector (dropnaPrice n)) "month"
          (fun r => strSliceTake 4 (cellAt (filterSector (dropnaPrice n)).cols r "period")))
        "year"
        (fun r => strSliceTakeRight 2 (cellAt
          (assignColumn (filterSector (dropnaPrice n)) "month"
            (fun r2 => strSliceTake 4
              (cellAt (filterSector (dropnaPrice n)).cols r2 "period"))).cols r "period")))
      output_columns
  exact selectColsPd_eq_selectCols _ output_columns hwf4 hcnt4

theorem keptRows_eq (t : Table) :
    keptRows t = ((normalizeColumns t).rows.filter (priceOK (normalizeColumns t).cols)).filter
      (sectorOK (normalizeColumns t).cols) := rfl

theorem transformPd_ok_elim (t u : Table)
    (h : transform_electricity_sales_data_pd t = Except.ok u) :
    (required_columns.all fun col => (normalizeColumns t).cols.contains col) = true ∧
    u = transformBodyPd (normalizeColumns t) := by
  by_cases hall : (required_columns.all fun col =>
      (normalizeColumns t).cols.contains col) = true
  · refine ⟨hall, ?_⟩
    have hany : (required_columns.any fun col =>
        (normalizeColumns t).cols.contains col) = true := by
      have hp := List.all_eq_true.mp hall "period" (by simp [required_columns])
      exact List.any_eq_true.mpr ⟨"period", by simp [required_columns], hp⟩
    have h1 : (!(required_columns.any fun col =>
        (normalizeColumns t).cols.contains col)) ≠ true := by
      rw [hany]; decide
    have h2 : (!(required_columns.all fun col =>
        (normalizeColumns t).cols.contains col)) ≠ true := by
      rw [hall]; decide
    unfold transform_electricity_sales_data_pd at h
    rw [if_neg h1, if_neg h2] at h
    exact (Except.ok.inj h).symm
  · have hallf : (required_columns.all fun col =>
        (normalizeColumns t).cols.contains col) = false := by
      cases hv : (required_columns.all fun col => (normalizeColumns t).cols.contains col)
      · rfl
      · exact absurd hv hall
    unfold transform_electricity_sales_data_pd at h
    by_cases hany : (required_columns.any fun col =>
        (normalizeColumns t).cols.contains col) = true
    · have hc1 : (!(required_columns.any fun col =>
          (normalizeColumns t).cols.contains col)) ≠ true := by
        rw [hany]; decide
      have hc2 : (!(required_columns.all fun col =>
          (normalizeColumns t).cols.contains col)) = true := by
        rw [hallf]; rfl
      rw [if_neg hc1, if_pos hc2] at h
      exact Except.noConfusion h
    · have hanyf : (required_columns.any fun col =>
          (normalizeColumns t).cols.contains col) = false := by
        cases hv : (required_columns.any fun col => (normalizeColumns t).cols.contains col)
        · rfl
        · exact absurd hv hany
      have hc1 : (!(required_columns.any fun col =>
          (normalizeColumns t).cols.contains col)) = true := by
        rw [hanyf]; rfl
      rw [if_pos hc1] at h
      exact Except.noConfusion h

/-- C8 counterexample: a raw table with unique headers containing both
`Price-Units` and `price-units` is accepted by the transform, but with the
projection modelled faithfully for duplicate labels the output has six
columns (`price-units` twice), not the claimed five: the rename loop
duplicated the `price-units` label and pandas list-selection returns every
matching column. -/
theorem transform_pd_dup_label_counterexample :
    transform_electricity_sales_data_pd dupAliasTable = Except.ok dupAliasOut ∧
    dupAliasOut.cols.length = 6 ∧
    dupAliasOut.cols ≠ output_columns := by
  refine ⟨by rfl, by rfl, by decide⟩

/-- C8 amended: (a) the duplicate-label-faithful projection step is
idempotent on a rectangular table that already has exactly the five output
columns in output order; (b) whenever each output label occurs at most once
in the normalized columns (no alias rename collided with an existing
canonical label), a successful transform — projection modelled faithfully —
outputs exactly the five columns in that order, and its rows are, in
preserved order, the projections of the rows that survive the two (stable)
filters. -/
theorem projection_idempotent_and_unique_label_shape :
    (∀ t : Table, t.WF → t.cols = output_columns →
      selectColsPd t output_columns = t) ∧
    (∀ t u : Table, t.WF →
      (∀ c ∈ output_columns, (normalizeColumns t).cols.count c ≤ 1) →
      transform_electricity_sales_data_pd t = Except.ok u →
      u.cols = output_columns ∧
      u.rows = (keptRows t).map (outRowOf (normalizeColumns t).cols)) := by
  constructor
  · intro t hwf hcols
    have hcnt : ∀ c ∈ output_columns, t.cols.count c = 1 := by
      rw [hcols]
      decide
    rw [selectColsPd_eq_selectCols t output_columns hwf hcnt]
    exact selectCols_self t hwf hcols
  · intro t u hwf hcnt h
    obtain ⟨hall, hu⟩ := transformPd_ok_elim t u h
    have hwfn : (normalizeColumns t).WF := normalizeColumns_WF t hwf
    have hposs : ∀ c ∈ required_columns, c ∈ (normalizeColumns t).cols := by
      intro c hcm
      have := List.all_eq_true.mp hall c hcm
      exact List.elem_iff.mp this
    have hb := transformBodyPd_eq_of_unique (normalizeColumns t) hwfn hcnt
      (hposs "stateid" (by decide)) (hposs "price" (by decide))
      (hposs "price-units" (by decide))
    rw [hb, transformBody_eq (normalizeColumns t) hwfn] at hu
    refine ⟨by rw [hu], ?_⟩
    rw [keptRows_eq, hu]

/-- C8 amended witness: concrete instantiation of both parts on the example
data, whose normalized columns are duplicate-free. -/
theorem projection_idempotent_and_unique_label_shape_witness :
    exampleOut.WF ∧ exampleOut.cols = output_columns ∧
    selectColsPd exampleOut output_columns = exampleOut ∧
    exampleTable.WF ∧
    (∀ c ∈ output_columns, (normalizeColumns exampleTable).cols.count c ≤ 1) ∧
    transform_electricity_sales_data_pd exampleTable = Except.ok exampleOut ∧
    (exampleOut.cols = output_columns ∧
      exampleOut.rows = (keptRows exampleTable).map
        (outRowOf (normalizeColumns exampleTable).cols)) :=
  ⟨by decide, by rfl,
   projection_idempotent_and_unique_label_shape.1 exampleOut (by decide) (by rfl),
   by decide, by decide, by rfl,
   projection_idempotent_and_unique_label_shape.2 exampleTable exampleOut
     (by decide) (by decide) (by rfl)⟩

/-! ## Copy-on-transform: the caller's DataFrame is never mutated (C5) -/

theorem getD_append_singleton (l : List Table) (x d : Table) (i : Nat)
    (h : i < l.length) : (l ++ [x]).getD i d = l.getD i d := by
  induction l generalizing i with
  | nil => simp at h
  | cons a as ih =>
    cases i with
    | zero => rfl
    | succ n =>
      simp only [List.cons_append, List.getD_cons_succ]
      exact ih n (by simpa using h)

theorem getD_set_ne (l : List Table) (i j : Nat) (x d : Table) (h : i ≠ j) :
    (l.set i x).getD j d = l.getD j d := by
  induction l generalizing i j with
  | nil => rfl
  | cons a as ih =>
    cases i with
    | zero =>
      cases j with
      | zero => exact absurd rfl h
      | succ m => rfl
    | succ n =>
      cases j with
      | zero => rfl
      | succ m =>
        simp only [List.set_cons_succ, List.getD_cons_succ]
        exact ih n m (fun hh => h (by rw [hh]))

theorem alloc_get (s : PdState) (t : Table) (i : Nat) (h : i < s.dfs.length) :
    (s.alloc t).1.get i = s.get i :=
  getD_append_singleton s.dfs t _ i h

theorem alloc_len (s : PdState) (t : Table) :
    (s.alloc t).1.dfs.length = s.dfs.length + 1 := by
  simp [PdState.alloc]

theorem setRef_get (s : PdState) (j : Nat) (t : Table) (i : Nat) (h : j ≠ i) :
    (s.setRef j t).get i = s.get i :=
  getD_set_ne s.dfs j i t _ h

theorem setRef_len (s : PdState) (j : Nat) (t : Table) :
    (s.setRef j t).dfs.length = s.dfs.length := by
  simp [PdState.setRef]

theorem renameLoop_get (td : Nat) (s : PdState) (i : Nat) (h : td ≠ i) :
    (renameLoop td s).get i = s.get i := by
  unfold renameLoop
  generalize column_mapping = l
  induction l generalizing s with
  | nil => rfl
  | cons p ps ih =>
    simp only [List.foldl_cons]
    by_cases hc : ((s.get td).cols.contains p.1) = true
    · rw [if_pos hc, ih (s.setRef td (renameColumn (s.get td) p.1 p.2))]
      exact setRef_get s td _ i h
    · rw [if_neg hc, ih s]

theorem renameLoop_len (td : Nat) (s : PdState) :
    (renameLoop td s).dfs.length = s.dfs.length := by
  unfold renameLoop
  generalize column_mapping = l
  induction l generalizing s with
  | nil => rfl
  | cons p ps ih =>
    simp only [List.foldl_cons]
    by_cases hc : ((s.get td).cols.contains p.1) = true
    · rw [if_pos hc, ih (s.setRef td (renameColumn (s.get td) p.1 p.2))]
      exact setRef_len s td _
    · rw [if_neg hc, ih s]

theorem postValidate_get (td raw : Nat) (s2 : PdState) (htd : td ≠ raw)
    (hraw : raw < s2.dfs.length) :
    (postValidate td raw s2).1.get raw = s2.get raw := by
  unfold postValidate
  by_cases h1 : (!(required_columns.any fun col => (s2.get td).cols.contains col)) = true
  · rw [if_pos h1]
  · rw [if_neg h1]
    by_cases h2 : (!(required_columns.all fun col => (s2.get td).cols.contains col)) = true
    · rw [if_pos h2]
    · rw [if_neg h2]
      show (projectStage (filterStage td (dropnaStage td s2)).2
        (yearStage (filterStage td (dropnaStage td s2)).2
          (monthStage (filterStage td (dropnaStage td s2)).2
            (filterStage td (dropnaStage td s2)).1))).1.get raw = s2.get raw
      have l3 : (dropnaStage td s2).dfs.length = s2.dfs.length := setRef_len s2 td _
      have g3 : (dropnaStage td s2).get raw = s2.get raw := setRef_get s2 td _ raw htd
      have hte : (filterStage td (dropnaStage td s2)).2 = (dropnaStage td s2).dfs.length := rfl
      have hraw3 : raw < (dropnaStage td s2).dfs.length := by rw [l3]; exact hraw
      have g4 : (filterStage td (dropnaStage td s2)).1.get raw = (dropnaStage td s2).get raw :=
        alloc_get (dropnaStage td s2) _ raw hraw3
      have l4 : (filterStage td (dropnaStage td s2)).1.dfs.length
          = (dropnaStage td s2).dfs.length + 1 := alloc_len (dropnaStage td s2) _
      have hne : (filterStage td (dropnaStage td s2)).2 ≠ raw := by
        rw [hte]
        omega
      have g5 : (monthStage (filterStage td (dropnaStage td s2)).2
          (filterStage td (dropnaStage td s2)).1).get raw
          = (filterStage td (dropnaStage td s2)).1.get raw :=
        setRef_get _ _ _ raw hne
      have l5 : (monthStage (filterStage td (dropnaStage td s2)).2
          (filterStage td (dropnaStage td s2)).1).dfs.length
          = (filterStage td (dropnaStage td s2)).1.dfs.length := setRef_len _ _ _
      have g6 : (yearStage (filterStage td (dropnaStage td s2)).2
          (monthStage (filterStage td (dropnaStage td s2)).2
            (filterStage td (dropnaStage td s2)).1)).get raw
          = (monthStage (filterStage td (dropnaStage td s2)).2
              (filterStage td (dropnaStage td s2)).1).get raw :=
        setRef_get _ _ _ raw hne
      have l6 : (yearStage (filterStage td (dropnaStage td s2)).2
          (monthStage (filterStage td (dropnaStage td s2)).2
            (filterStage td (dropnaStage td s2)).1)).dfs.length
          = (monthStage (filterStage td (dropnaStage td s2)).2
              (filterStage td (dropnaStage td s2)).1).dfs.length := setRef_len _ _ _
      have hraw6 : raw < (yearStage (filterStage td (dropnaStage td s2)).2
          (monthStage (filterStage td (dropnaStage td s2)).2
            (filterStage td (dropnaStage td s2)).1)).dfs.length := by
        rw [l6, l5, l4, l3]
        omega
      have g7 := alloc_get (yearStage (filterStage td (dropnaStage td s2)).2
          (monthStage (filterStage td (dropnaStage td s2)).2
            (filterStage td (dropnaStage td s2)).1))
          (selectCols ((yearStage (filterStage td (dropnaStage td s2)).2
            (monthStage (filterStage td (dropnaStage td s2)).2
              (filterStage td (dropnaStage td s2)).1)).get
                (filterStage td (dropnaStage td s2)).2) output_columns) raw hraw6
      exact g7.trans (g6.trans (g5.trans (g4.trans g3)))

theorem except_map_ok (F : Nat → Table) (x : Nat) :
    Except.map F (Except.ok x : Except TransformError Nat) = Except.ok (F x) := rfl

theorem getD_append_self (l : List Table) (x d : Table) :
    (l ++ [x]).getD l.length d = x := by
  induction l with
  | nil => rfl
  | cons a as ih =>
    simp only [List.cons_append, List.length_cons, List.getD_cons_succ]
    exact ih

theorem getD_set_self (l : List Table) (i : Nat) (x d : Table) (h : i < l.length) :
    (l.set i x).getD i d = x := by
  induction l generalizing i with
  | nil => simp at h
  | cons a as ih =>
    cases i with
    | zero => rfl
    | succ n =>
      simp only [List.set_cons_succ, List.getD_cons_succ]
      exact ih n (by simpa using h)

theorem alloc_get_new (s : PdState) (t : Table) :
    (s.alloc t).1.get (s.alloc t).2 = t :=
  getD_append_self s.dfs t _

theorem setRef_get_self (s : PdState) (i : Nat) (t : Table) (h : i < s.dfs.length) :
    (s.setRef i t).get i = t :=
  getD_set_self s.dfs i t _ h

/-- The rename loop acting on the working reference computes exactly the
pure `normalizeColumns` of the table stored there. -/
theorem renameLoop_get_self (td : Nat) (s : PdState) (h : td < s.dfs.length) :
    (renameLoop td s).get td = normalizeColumns (s.get td) := by
  unfold renameLoop normalizeColumns
  generalize column_mapping = l
  induction l generalizing s with
  | nil => rfl
  | cons p ps ih =>
    simp only [List.foldl_cons]
    by_cases hc : ((s.get td).cols.contains p.1) = true
    · rw [if_pos hc, if_pos hc]
      have hlen : td < (s.setRef td (renameColumn (s.get td) p.1 p.2)).dfs.length := by
        rw [setRef_len]
        exact h
      rw [ih (s.setRef td (renameColumn (s.get td) p.1 p.2)) hlen,
          setRef_get_self s td _ h]
    · rw [if_neg hc, if_neg hc]
      exact ih s h

/-- The heap-passing transform agrees with the pure transform: mapping the
returned reference through the final heap yields exactly
`transform_electricity_sales_data` of the caller's table, and errors
coincide. -/
theorem transformStateful_agrees (s0 : PdState) (raw : Nat)
    (h : raw < s0.dfs.length) :
    ((transformStateful s0 raw).2).map ((transformStateful s0 raw).1.get)
      = transform_electricity_sales_data (s0.get raw) := by
  unfold transformStateful
  have htd : (s0.alloc (s0.get raw)).2 = s0.dfs.length := rfl
  have hlen1 : (s0.alloc (s0.get raw)).1.dfs.length = s0.dfs.length + 1 :=
    alloc_len s0 _
  have htdlt : (s0.alloc (s0.get raw)).2 < (s0.alloc (s0.get raw)).1.dfs.length := by
    rw [htd, hlen1]
    omega
  have htdne : (s0.alloc (s0.get raw)).2 ≠ raw := by
    rw [htd]
    omega
  have h1get : (s0.alloc (s0.get raw)).1.get (s0.alloc (s0.get raw)).2 = s0.get raw :=
    alloc_get_new s0 _
  have h2self : (renameLoop (s0.alloc (s0.get raw)).2 (s0.alloc (s0.get raw)).1).get
      (s0.alloc (s0.get raw)).2 = normalizeColumns (s0.get raw) := by
    rw [renameLoop_get_self _ _ htdlt, h1get]
  have h2raw : (renameLoop (s0.alloc (s0.get raw)).2 (s0.alloc (s0.get raw)).1).get raw
      = s0.get raw := by
    rw [renameLoop_get _ _ raw htdne, alloc_get s0 _ raw h]
  have h2len : (renameLoop (s0.alloc (s0.get raw)).2 (s0.alloc (s0.get raw)).1).dfs.length
      = s0.dfs.length + 1 := by
    rw [renameLoop_len, hlen1]
  unfold postValidate
  rw [h2self]
  unfold transform_electricity_sales_data
  by_cases c1 : (!(required_columns.any fun col =>
      (normalizeColumns (s0.get raw)).cols.contains col)) = true
  · rw [if_pos c1, if_pos c1, h2raw]
    rfl
  · rw [if_neg c1, if_neg c1]
    by_cases c2 : (!(required_columns.all fun col =>
        (normalizeColumns (s0.get raw)).cols.contains col)) = true
    · rw [if_pos c2, if_pos c2]
      rfl
    · rw [if_neg c2, if_neg c2]
      show Except.map _ (Except.ok _) = Except.ok (transformBody (normalizeColumns (s0.get raw)))
      rw [except_map_ok]
      refine congrArg Except.ok ?_
      show (projectStage
          (filterStage (s0.alloc (s0.get raw)).2
            (dropnaStage (s0.alloc (s0.get raw)).2
              (renameLoop (s0.alloc (s0.get raw)).2 (s0.alloc (s0.get raw)).1))).2
          (yearStage
            (filterStage (s0.alloc (s0.get raw)).2
              (dropnaStage (s0.alloc (s0.get raw)).2
                (renameLoop (s0.alloc (s0.get raw)).2 (s0.alloc (s0.get raw)).1))).2
            (monthStage
              (filterStage (s0.alloc (s0.get raw)).2
                (dropnaStage (s0.alloc (s0.get raw)).2
                  (renameLoop (s0.alloc (s0.get raw)).2 (s0.alloc (s0.get raw)).1))).2
              (filterStage (s0.alloc (s0.get raw)).2
                (dropnaStage (s0.alloc (s0.get raw)).2
                  (renameLoop (s0.alloc (s0.get raw)).2 (s0.alloc (s0.get raw)).1))).1))).1.get
        (projectStage
          (filterStage (s0.alloc (s0.get raw)).2
            (dropnaStage (s0.alloc (s0.get raw)).2
              (renameLoop (s0.alloc (s0.get raw)).2 (s0.alloc (s0.get raw)).1))).2
          (yearStage
            (filterStage (s0.alloc (s0.get raw)).2
              (dropnaStage (s0.alloc (s0.get raw)).2
                (renameLoop (s0.alloc (s0.get raw)).2 (s0.alloc (s0.get raw)).1))).2
            (monthStage
              (filterStage (s0.alloc (s0.get raw)).2
                (dropnaStage (s0.alloc (s0.get raw)).2
                  (renameLoop (s0.alloc (s0.get raw)).2 (s0.alloc (s0.get raw)).1))).2
              (filterStage (s0.alloc (s0.get raw)).2
                (dropnaStage (s0.alloc (s0.get raw)).2
                  (renameLoop (s0.alloc (s0.get raw)).2 (s0.alloc (s0.get raw)).1))).1))).2
        = transformBody (normalizeColumns (s0.get raw))
      obtain ⟨S3, hS3⟩ : ∃ S3, dropnaStage (s0.alloc (s0.get raw)).2
          (renameLoop (s0.alloc (s0.get raw)).2 (s0.alloc (s0.get raw)).1) = S3 := ⟨_, rfl⟩
      have h3self : S3.get (s0.alloc (s0.get raw)).2
          = dropnaPrice (normalizeColumns (s0.get raw)) := by
        rw [← hS3]
        unfold dropnaStage
        rw [setRef_get_self _ _ _ (by rw [h2len, htd]; omega), h2self]
      have h3len : S3.dfs.length = s0.dfs.length + 1 := by
        rw [← hS3]
        unfold dropnaStage
        rw [setRef_len, h2len]
      rw [hS3]
      unfold filterStage
      rw [h3self]
      obtain ⟨P4, hP4⟩ : ∃ P4, S3.alloc (filterSector (dropnaPrice
          (normalizeColumns (s0.get raw)))) = P4 := ⟨_, rfl⟩
      have h4get : P4.1.get P4.2
          = filterSector (dropnaPrice (normalizeColumns (s0.get raw))) := by
        rw [← hP4]
        exact alloc_get_new S3 _
      have h4len : P4.2 < P4.1.dfs.length := by
        rw [← hP4]
        rw [alloc_len]
        show S3.dfs.length < S3.dfs.length + 1
        omega
      rw [hP4]
      unfold monthStage
      rw [h4get]
      obtain ⟨S5, hS5⟩ : ∃ S5, P4.1.setRef P4.2 (assignColumn
          (filterSector (dropnaPrice (normalizeColumns (s0.get raw)))) "month"
          (fun r => strSliceTake 4 (cellAt (filterSector (dropnaPrice
            (normalizeColumns (s0.get raw)))).cols r "period"))) = S5 := ⟨_, rfl⟩
      have h5get : S5.get P4.2
          = assignColumn (filterSector (dropnaPrice (normalizeColumns (s0.get raw)))) "month"
            (fun r => strSliceTake 4 (cellAt (filterSector (dropnaPrice
              (normalizeColumns (s0.get raw)))).cols r "period")) := by
        rw [← hS5]
        exact setRef_get_self P4.1 P4.2 _ h4len
      have h5len : S5.dfs.length = P4.1.dfs.length := by
        rw [← hS5]
        exact setRef_len _ _ _
      rw [hS5]
      unfold yearStage
      rw [h5get]
      obtain ⟨S6, hS6⟩ : ∃ S6, S5.setRef P4.2 (assignColumn
          (assignColumn (filterSector (dropnaPrice (normalizeColumns (s0.get raw)))) "month"
            (fun r => strSliceTake 4 (cellAt (filterSector (dropnaPrice
              (normalizeColumns (s0.get raw)))).cols r "period")))
          "year"
          (fun r => strSliceTakeRight 2 (cellAt (assignColumn
            (filterSector (dropnaPrice (normalizeColumns (s0.get raw)))) "month"
            (fun r2 => strSliceTake 4 (cellAt (filterSector (dropnaPrice
              (normalizeColumns (s0.get raw)))).cols r2 "period"))).cols r "period"))) = S6 :=
        ⟨_, rfl⟩
      have h6get : S6.get P4.2
          = assignColumn
            (assignColumn (filterSector (dropnaPrice (normalizeColumns (s0.get raw)))) "month"
              (fun r => strSliceTake 4 (cellAt (filterSector (dropnaPrice
                (normalizeColumns (s0.get raw)))).cols r "period")))
            "year"
            (fun r => strSliceTakeRight 2 (cellAt (assignColumn
              (filterSector (dropnaPrice (normalizeColumns (s0.get raw)))) "month"
              (fun r2 => strSliceTake 4 (cellAt (filterSector (dropnaPrice
                (normalizeColumns (s0.get raw)))).cols r2 "period"))).cols r "period")) := by
        rw [← hS6]
        refine setRef_get_self S5 P4.2 _ ?_
        rw [h5len]
        exact h4len
      rw [hS6]
      unfold projectStage
      rw [alloc_get_new, h6get]
      rfl

/-- C5: running the stateful transform leaves the caller's original
DataFrame untouched — on every heap and valid reference, after the call
(whether it succeeds or raises) the table at the caller's reference is
exactly the table that was there before. The working copy created by
`raw_data.copy()` absorbs all in-place mutations. -/
theorem transform_preserves_original (s0 : PdState) (raw : Nat)
    (h : raw < s0.dfs.length) :
    (transformStateful s0 raw).1.get raw = s0.get raw := by
  unfold transformStateful
  have htd : (s0.alloc (s0.get raw)).2 = s0.dfs.length := rfl
  have htdne : (s0.alloc (s0.get raw)).2 ≠ raw := by
    rw [htd]
    omega
  have hlen1 : (s0.alloc (s0.get raw)).1.dfs.length = s0.dfs.length + 1 :=
    alloc_len s0 _
  have hlen2 : (renameLoop (s0.alloc (s0.get raw)).2
      (s0.alloc (s0.get raw)).1).dfs.length = s0.dfs.length + 1 := by
    rw [renameLoop_len, hlen1]
  have hg := postValidate_get (s0.alloc (s0.get raw)).2 raw
      (renameLoop (s0.alloc (s0.get raw)).2 (s0.alloc (s0.get raw)).1)
      htdne (by rw [hlen2]; omega)
  rw [hg, renameLoop_get _ _ raw htdne, alloc_get s0 _ raw h]

/-- C5 witness: a one-DataFrame heap holding the example table; after the
stateful transform the original slot still holds the example table. -/
theorem transform_preserves_original_witness :
    0 < (PdState.mk [exampleTable]).dfs.length ∧
    (transformStateful ⟨[exampleTable]⟩ 0).1.get 0 = (PdState.mk [exampleTable]).get 0 :=
  ⟨by decide, transform_preserves_original ⟨[exampleTable]⟩ 0 (by decide)⟩

/-! ## Extractor error dispatch (C9) -/

theorem strEndsWith_txt_not_csv (p : String) (h : strEndsWith p ".txt" = true) :
    strEndsWith p ".csv" = false := by
  cases hv : strEndsWith p ".csv" with
  | false => rfl
  | true =>
    unfold strEndsWith at h hv
    rw [List.isSuffixOf_iff_suffix] at h hv
    have hle : (".txt".data).length ≤ (".csv".data).length := by decide
    have hsuf : ".txt".data <:+ ".csv".data :=
      List.suffix_of_suffix_length_le h hv hle
    exact absurd hsuf (by decide)

theorem strEndsWith_txt_not_parquet (p : String) (h : strEndsWith p ".txt" = true) :
    strEndsWith p ".parquet" = false := by
  cases hv : strEndsWith p ".parquet" with
  | false => rfl
  | true =>
    unfold strEndsWith at h hv
    rw [List.isSuffixOf_iff_suffix] at h hv
    have hle : (".txt".data).length ≤ (".parquet".data).length := by decide
    have hsuf : ".txt".data <:+ ".parquet".data :=
      List.suffix_of_suffix_length_le h hv hle
    exact absurd hsuf (by decide)

/-- C9 counterexample: `"data.txt"` ends in `.txt`, yet on a filesystem where
it does not exist the extractor fails with `NotFound`, not
`UnsupportedFormat` — the existence check runs before the extension check, so
the claim's first universal is false as stated. -/
theorem extract_txt_missing_counterexample :
    strEndsWith "data.txt" ".txt" = true ∧
    extract_tabular_data [] "data.txt" =
      Except.error (ExtractError.NotFound "data.txt") ∧
    extract_tabular_data [] "data.txt" ≠
      Except.error ExtractError.UnsupportedFormat := by
  refine ⟨by decide, by rfl, ?_⟩
  intro hcon
  exact ExtractError.noConfusion (Except.error.inj hcon)

/-- C9 amended: on every path that does not exist the extractor fails with
`NotFound`; on every path that exists and ends in `.txt` it fails with
`UnsupportedFormat` (the existence check precedes the extension check). -/
theorem extract_tabular_errors (fs : List (String × Table)) (p : String) :
    (fs.lookup p = none →
      extract_tabular_data fs p = Except.error (ExtractError.NotFound p)) ∧
    (∀ t, fs.lookup p = some t → strEndsWith p ".txt" = true →
      extract_tabular_data fs p = Except.error ExtractError.UnsupportedFormat) := by
  constructor
  · intro hnone
    unfold extract_tabular_data
    rw [hnone]
  · intro t hsome htxt
    unfold extract_tabular_data
    rw [hsome]
    have hcsv : strEndsWith p ".csv" ≠ true := by
      rw [strEndsWith_txt_not_csv p htxt]
      decide
    have hpq : strEndsWith p ".parquet" ≠ true := by
      rw [strEndsWith_txt_not_parquet p htxt]
      decide
    show (if strEndsWith p ".csv" = true then Except.ok t
      else if strEndsWith p ".parquet" = true then Except.ok t
      else Except.error ExtractError.UnsupportedFormat)
      = Except.error ExtractError.UnsupportedFormat
    rw [if_neg hcsv, if_neg hpq]

/-- C9 amended witness: a one-file filesystem containing `a.txt`: the
missing `b.csv` gives `NotFound`, the present `a.txt` gives
`UnsupportedFormat`. -/
theorem extract_tabular_errors_witness :
    ([(("a.txt" : String), (⟨[], []⟩ : Table))].lookup "b.csv" = none ∧
     extract_tabular_data [("a.txt", ⟨[], []⟩)] "b.csv" =
       Except.error (ExtractError.NotFound "b.csv")) ∧
    ([(("a.txt" : String), (⟨[], []⟩ : Table))].lookup "a.txt" = some ⟨[], []⟩ ∧
     strEndsWith "a.txt" ".txt" = true ∧
     extract_tabular_data [("a.txt", ⟨[], []⟩)] "a.txt" =
       Except.error ExtractError.UnsupportedFormat) :=
  ⟨⟨by rfl, (extract_tabular_errors [("a.txt", ⟨[], []⟩)] "b.csv").1 (by rfl)⟩,
   ⟨by rfl, by decide,
    (extract_tabular_errors [("a.txt", ⟨[], []⟩)] "a.txt").2 ⟨[], []⟩ (by rfl) (by decide)⟩⟩

/-! ## The `unit_price` alias feeds `price-units`, not `price` (C10) -/

theorem cellAt_req_punits_unit_price (r : List Value) :
    cellAt required_columns r "price-units" = cellAt unitPriceCols r "unit_price" := by
  rcases r with _ | ⟨a, _ | ⟨b, _ | ⟨c, _ | ⟨d, _ | ⟨e, rest⟩⟩⟩⟩⟩ <;> rfl

theorem cellAt_req_price_unitCols (r : List Value) :
    cellAt required_columns r "price" = cellAt unitPriceCols r "price" := by
  rcases r with _ | ⟨a, _ | ⟨b, _ | ⟨c, _ | ⟨d, _ | ⟨e, rest⟩⟩⟩⟩⟩ <;> rfl

/-- C10: the alias table maps `UnitPrice` to `price` but `unit_price` to
`price-units`; consequently, for every (rectangular) row data under the
columns `period, stateid, sectorName, price, unit_price`, the transform
succeeds and every output row takes its `price-units` value from the input
row's `unit_price` cell and its `price` value from the input `price` cell —
`unit_price` values are never treated as prices. -/
theorem unit_price_alias_to_price_units (rows : List (List Value))
    (hwf : ∀ r ∈ rows, r.length = 5) :
    (column_mapping.lookup "UnitPrice" = some "price" ∧
     column_mapping.lookup "unit_price" = some "price-units") ∧
    ∃ u, transform_electricity_sales_data ⟨unitPriceCols, rows⟩ = Except.ok u ∧
      ∀ o ∈ u.rows, ∃ r ∈ rows,
        cellAt u.cols o "price-units" = cellAt unitPriceCols r "unit_price" ∧
        cellAt u.cols o "price" = cellAt unitPriceCols r "price" := by
  refine ⟨⟨by rfl, by rfl⟩, ?_⟩
  have hwfT : (Table.mk unitPriceCols rows).WF := by
    intro r hr
    exact hwf r hr
  have hnorm : normalizeColumns ⟨unitPriceCols, rows⟩ = ⟨required_columns, rows⟩ := by
    rw [normalizeColumns_eq]
    show (⟨normCols unitPriceCols, rows⟩ : Table) = ⟨required_columns, rows⟩
    have hc : normCols unitPriceCols = required_columns := by decide
    rw [hc]
  have hall : (required_columns.all fun col =>
      (normalizeColumns ⟨unitPriceCols, rows⟩).cols.contains col) = true := by
    rw [hnorm]
    show (required_columns.all fun col => required_columns.contains col) = true
    decide
  have htr := transform_eq_of_all ⟨unitPriceCols, rows⟩ hwfT hall
  obtain ⟨K, hK⟩ : ∃ K, keptRows ⟨unitPriceCols, rows⟩ = K := ⟨_, rfl⟩
  rw [hnorm, hK] at htr
  refine ⟨_, htr, ?_⟩
  intro o ho
  obtain ⟨r, hr, hrw⟩ := List.mem_map.mp ho
  rw [← hK] at hr
  unfold keptRows at hr
  rw [hnorm] at hr
  have hmem : r ∈ rows := (List.mem_filter.mp (List.mem_filter.mp hr).1).1
  subst hrw
  exact ⟨r, hmem, cellAt_req_punits_unit_price r, cellAt_req_price_unitCols r⟩

/-- C10 witness: a single residential row carried under `unit_price`. -/
theorem unit_price_alias_to_price_units_witness :
    (∀ r ∈ [[Value.vstr "202301", Value.vstr "CA", Value.vstr "residential",
        Value.vnum (155 / 10), Value.vstr "cents per kWh"]], r.length = 5) ∧
    ((column_mapping.lookup "UnitPrice" = some "price" ∧
      column_mapping.lookup "unit_price" = some "price-units") ∧
     ∃ u, transform_electricity_sales_data
        ⟨unitPriceCols, [[Value.vstr "202301", Value.vstr "CA", Value.vstr "residential",
          Value.vnum (155 / 10), Value.vstr "cents per kWh"]]⟩ = Except.ok u ∧
       ∀ o ∈ u.rows, ∃ r ∈ [[Value.vstr "202301", Value.vstr "CA", Value.vstr "residential",
          Value.vnum (155 / 10), Value.vstr "cents per kWh"]],
         cellAt u.cols o "price-units" = cellAt unitPriceCols r "unit_price" ∧
         cellAt u.cols o "price" = cellAt unitPriceCols r "price") :=
  ⟨by decide,
   unit_price_alias_to_price_units
     [[Value.vstr "202301", Value.vstr "CA", Value.vstr "residential",
       Value.vnum (155 / 10), Value.vstr "cents per kWh"]] (by decide)⟩

end Etl
